import Mathlib

/-
Shallow embedding of mailstat (src/main.rs): an incremental IMAP-metadata
sync tool.  The program loads a cached snapshot of `Entry` records, pulls
reverse-chronological pages of envelopes from the mailbox, filters and
deduplicates them into the snapshot, persists the snapshot as JSON, and
derives per-day and per-domain counts plus a chart.

Modelling conventions:
* `chrono::DateTime<Tz>` is a pair of a naive UTC civil datetime and a UTC
  offset; comparison and equality look only at the naive UTC part.  We model
  the naive part as a `Civil` record of calendar fields and compare through a
  mixed-radix numeric key, which is order-isomorphic to chronological order
  for in-range fields.  Timestamps here have whole-second precision (envelope
  dates come from mail headers; `to_rfc3339` prints subsecond digits only
  when they are nonzero, which never happens for these values).
* `chrono::Local` is modelled as a function `L : Civil → Int` giving the UTC
  offset in minutes as a function of the naive UTC datetime, exactly the
  `TimeZone::offset_from_utc_datetime` interface chrono uses.
* Rust panics (`unwrap` on `None`/`Err`) are modelled as the
  `RunError.panicAbort` error; unlike the typed `Result` errors
  (`notFound`, `parseError`) a panic cannot be intercepted by the
  `if let Ok(..)` in `main`.
* The mailbox backend is modelled as the finite list of pages it returns;
  requesting a page past the end of the list yields an empty page, which is
  how a real mailbox signals exhaustion.
-/

namespace Mailstat

/-- Naive civil datetime fields (year, month, day, hour, minute, second).
Models the naive UTC part of a `chrono::DateTime`. -/
structure Civil where
  y : Nat
  mo : Nat
  d : Nat
  h : Nat
  mi : Nat
  s : Nat
deriving DecidableEq

/-- Mixed-radix numeric key for a `Civil` value.  For in-range fields
(month 1..12, day 1..31, hour < 24, minute < 60, second < 60) the key order
coincides with chronological order, which is how chrono compares naive
datetimes. -/
def Civil.key (c : Civil) : Nat :=
  ((((c.y * 13 + c.mo) * 32 + c.d) * 24 + c.h) * 60 + c.mi) * 60 + c.s

/-- Proleptic Gregorian leap-year test, as used by chrono. -/
def isLeapYear (y : Nat) : Bool :=
  (y % 4 == 0 && y % 100 != 0) || y % 400 == 0

/-- Number of days in a month of a given year. -/
def daysInMonth (y mo : Nat) : Nat :=
  if mo = 2 then (if isLeapYear y then 29 else 28)
  else if mo = 4 ∨ mo = 6 ∨ mo = 9 ∨ mo = 11 then 30
  else if 1 ≤ mo ∧ mo ≤ 12 then 31
  else 0

/-- The calendar day after `(y, mo, d)`. -/
def nextDay (y mo d : Nat) : Nat × Nat × Nat :=
  if d < daysInMonth y mo then (y, mo, d + 1)
  else if mo < 12 then (y, mo + 1, 1)
  else (y + 1, 1, 1)

/-- The calendar day before `(y, mo, d)`. -/
def prevDay (y mo d : Nat) : Nat × Nat × Nat :=
  if 1 < d then (y, mo, d - 1)
  else if 1 < mo then (y, mo - 1, daysInMonth y (mo - 1))
  else (y - 1, 12, 31)

/-- Shift a civil datetime by `off` minutes.  Offsets are bounded by a day,
so at most one calendar-day step is needed. -/
def addMinutes (c : Civil) (off : Int) : Civil :=
  let t : Int := (c.h * 60 + c.mi : Nat) + off
  if t < 0 then
    let t' := (t + 1440).toNat
    let ymd := prevDay c.y c.mo c.d
    ⟨ymd.1, ymd.2.1, ymd.2.2, t' / 60, t' % 60, c.s⟩
  else if t < 1440 then
    ⟨c.y, c.mo, c.d, t.toNat / 60, t.toNat % 60, c.s⟩
  else
    let t' := (t - 1440).toNat
    let ymd := nextDay c.y c.mo c.d
    ⟨ymd.1, ymd.2.1, ymd.2.2, t' / 60, t' % 60, c.s⟩

/-- In-range check for civil fields (also bounds the year to the four-digit
range that RFC 3339 formatting covers). -/
def validCivil (c : Civil) : Bool :=
  1 ≤ c.y && c.y ≤ 9999 && 1 ≤ c.mo && c.mo ≤ 12 && 1 ≤ c.d &&
    c.d ≤ daysInMonth c.y c.mo && c.h < 24 && c.mi < 60 && c.s < 60

/-- A timezone-aware datetime: naive UTC civil fields plus a UTC offset in
minutes.  Models `chrono::DateTime` (both `FixedOffset` and `Local`). -/
structure DT where
  naive : Civil
  offsetMin : Int
deriving DecidableEq

/-- Strict chronological comparison of datetimes.  chrono compares
`DateTime` values (across timezones) by their naive UTC instant only. -/
def dtLt (a b : DT) : Bool := a.naive.key < b.naive.key

/-- The civil fields of a datetime expressed in its own timezone: what
chrono's `.year()`, `.month()`, `.day()` accessors return. -/
def DT.localFields (t : DT) : Civil := addMinutes t.naive t.offsetMin

/-- `CLEARLY_ERRONEOUS_DATE`: `1980-01-01T00:00:00+00:00` (src/main.rs:24). -/
def clearly_erroneous_date : DT := ⟨⟨1980, 1, 1, 0, 0, 0⟩, 0⟩

/-- One cached mailbox record (struct `Entry`, src/main.rs:235). -/
structure Entry where
  id : String
  message_id : String
  from_addr : String
  subject : String
  date : DT
deriving DecidableEq

/-- Membership test of a message id in the dedup set.  `main` keeps a
`HashSet<String>` that is initialised from the loaded entries and updated on
every push, so it always holds exactly the `message_id`s of the current
entry list; we model it by that list directly. -/
def hasId (es : List Entry) (m : String) : Bool :=
  es.any (fun r => r.message_id == m)

/-- The `for envelope in page.iter()` body of the sync loop
(src/main.rs:103-115) over one page: skip entries strictly before the
sentinel, break out of the outer loop (`true`) on an entry strictly before
the cutoff, append unseen entries.  Returns the updated entry list and
whether `break 'outer` fired. -/
def sync_page (cutoff : DT) : List Entry → List Entry → List Entry × Bool
  | [], es => (es, false)
  | e :: rest, es =>
    if dtLt e.date clearly_erroneous_date then sync_page cutoff rest es
    else if dtLt e.date cutoff then (es, true)
    else if hasId es e.message_id then sync_page cutoff rest es
    else sync_page cutoff rest (es ++ [e])

/-- The `'outer: loop` of `main` (src/main.rs:94-117): request pages in
order; an empty page or a cutoff hit terminates.  The second component
counts how many pages were requested from the backend (the final, breaking
request included).  Running past the supplied list models the backend's
exhaustion: the next request returns an empty page. -/
def sync_loop (cutoff : DT) : List (List Entry) → List Entry → Nat → List Entry × Nat
  | [], es, n => (es, n + 1)
  | page :: rest, es, n =>
    if page.isEmpty then (es, n + 1)
    else
      let r := sync_page cutoff page es
      if r.2 then (r.1, n + 1)
      else sync_loop cutoff rest r.1 (n + 1)

/-- One full sync run: start from the loaded snapshot `init`, consume
`pages`, using `cutoff` (= now minus the configured lookback days,
src/main.rs:79).  Yields the merged snapshot and the number of page
requests issued. -/
def sync (init : List Entry) (pages : List (List Entry)) (cutoff : DT) :
    List Entry × Nat :=
  sync_loop cutoff pages init 0

/-- `entries.iter().filter(|e| e.date > until)` (src/main.rs:127-128): the
record collection handed to the per-window day-count table and the domain
table. -/
def report_window (es : List Entry) (cutoff : DT) : List Entry :=
  es.filter (fun e => dtLt cutoff e.date)

/-- Bump the count of key `k` in an association list; models
`counts.entry(k).or_insert(0) += 1` on the `HashMap`. -/
def bump {κ : Type} [DecidableEq κ] : List (κ × Nat) → κ → List (κ × Nat)
  | [], k => [(k, 1)]
  | (k', c) :: rest, k =>
    if k' = k then (k', c + 1) :: rest else (k', c) :: bump rest k

/-- The calendar-day bucket of an entry:
`NaiveDate::from_ymd_opt(entry.date.year(), .month(), .day())`
(src/main.rs:160), i.e. the date portion in the record's own timezone. -/
def entryDay (e : Entry) : Nat × Nat × Nat :=
  ((e.date.localFields).y, (e.date.localFields).mo, (e.date.localFields).d)

/-- The counting fold of `count_by_date` (src/main.rs:156-164): skip entries
strictly before the sentinel, bump the day bucket otherwise. -/
def count_by_date_raw : List Entry → List ((Nat × Nat × Nat) × Nat) → List ((Nat × Nat × Nat) × Nat)
  | [], acc => acc
  | e :: rest, acc =>
    if dtLt e.date clearly_erroneous_date then count_by_date_raw rest acc
    else count_by_date_raw rest (bump acc (entryDay e))

/-- Order on day-count pairs used by `sorted.sort()` (src/main.rs:166):
`(NaiveDate, usize)` compares by date first, then count.  Dates are compared
through the same mixed-radix key used for datetimes. -/
def dayKey (d : Nat × Nat × Nat) : Nat := (d.1 * 13 + d.2.1) * 32 + d.2.2

/-- Pair order for sorting day counts. -/
def dayCountLe (a b : (Nat × Nat × Nat) × Nat) : Prop :=
  dayKey a.1 < dayKey b.1 ∨ (dayKey a.1 = dayKey b.1 ∧ a.2 ≤ b.2)

instance : DecidableRel dayCountLe := fun a b => by
  unfold dayCountLe; infer_instance

/-- `count_by_date` (src/main.rs:154-168): fold the entries into a count
map, then return the pairs sorted.  The `HashMap` iteration order is
immaterial because the keys are distinct and the vector is sorted before
being returned. -/
def count_by_date (es : List Entry) : List ((Nat × Nat × Nat) × Nat) :=
  List.insertionSort dayCountLe (count_by_date_raw es [])

/-- Sum of the counts of an aggregate. -/
def sumCounts {κ : Type} (l : List (κ × Nat)) : Nat := (l.map Prod.snd).sum

/-- Errors and panics of the run.  `notFound` and `parseError` model
`Result::Err` values (an absent cache file, malformed JSON); `panicAbort`
models a Rust panic, which unwinds past every `if let Ok(..)` and aborts
the process. -/
inductive RunError where
  | notFound : RunError
  | parseError : RunError
  | addressParseError : RunError
  | panicAbort : String → RunError
deriving DecidableEq

instance {ε α : Type} [DecidableEq ε] [DecidableEq α] : DecidableEq (Except ε α) := fun a b =>
  match a, b with
  | .ok x, .ok y => decidable_of_iff (x = y) (by simp)
  | .error x, .error y => decidable_of_iff (x = y) (by simp)
  | .ok _, .error _ => isFalse (by simp)
  | .error _, .ok _ => isFalse (by simp)

/-- Models `EmailAddress::parse(&entry.from_addr, None)` from the external
`email_address_parser` crate, reduced to what the program consumes: a
parseable `local@domain` shape yields its domain part, anything else fails.
The claims proved below depend only on whether a given concrete address
parses, never on the crate's exact grammar. -/
def splitAtChar (c : Char) : List Char → Option (List Char × List Char)
  | [] => none
  | x :: xs =>
    if x = c then some ([], xs)
    else (splitAtChar c xs).map fun p => (x :: p.1, p.2)

/-- The address parse proper: exactly one `@` with nonempty local part and
domain; yields the domain (`sender.get_domain()`, src/main.rs:202). -/
def parse_email_domain (s : String) : Option String :=
  match splitAtChar '@' s.data with
  | none => none
  | some (lp, rest) =>
    if lp ≠ [] ∧ rest ≠ [] ∧ rest.all (fun c => c ≠ '@') then some ⟨rest⟩ else none

/-- Panic message of the `unwrap` in `count_by_domain` (src/main.rs:201). -/
def addrPanicMsg : String := "called Option::unwrap on a None value: address parse failed"

/-- The counting fold of `count_by_domain` (src/main.rs:200-205): parse each
sender address (panicking on failure, per the `unwrap`), bump its domain. -/
def count_by_domain_aux : List Entry → List (String × Nat) → Except RunError (List (String × Nat))
  | [], acc => .ok acc
  | e :: rest, acc =>
    match parse_email_domain e.from_addr with
    | none => .error (.panicAbort addrPanicMsg)
    | some dom => count_by_domain_aux rest (bump acc dom)

/-- `count_by_domain` (src/main.rs:198-207).  The Rust signature returns a
bare `HashMap<String, usize>`; the only failure mode is the modelled panic. -/
def count_by_domain (es : List Entry) : Except RunError (List (String × Nat)) :=
  count_by_domain_aux es []

/-- Panic message of the three `unwrap`s in `graph_counts_by_date`
(src/main.rs:180-182). -/
def graphPanicMsg : String := "called Option::unwrap on a None value: empty day-count list"

/-- `graph_counts_by_date` (src/main.rs:178-196), reduced to its partial
prefix: it unconditionally unwraps `counts.first()`, `counts.last()` and the
maximum count before drawing.  Returns the chart bounds on success. -/
def graph_counts_by_date (es : List Entry) :
    Except RunError ((Nat × Nat × Nat) × (Nat × Nat × Nat) × Nat) :=
  let counts := count_by_date es
  match counts.head?, counts.getLast?, (counts.map Prod.snd).max? with
  | some first, some last, some mx => .ok (first.1, last.1, mx)
  | _, _, _ => .error (.panicAbort graphPanicMsg)

/-- The decimal digit character for `n < 10`. -/
def digitChar (n : Nat) : Char := Char.ofNat (48 + n)

/-- Two-digit zero-padded decimal rendering. -/
def pad2 (n : Nat) : List Char := [digitChar (n / 10), digitChar (n % 10)]

/-- Four-digit zero-padded decimal rendering. -/
def pad4 (n : Nat) : List Char := pad2 (n / 100) ++ pad2 (n % 100)

/-- Read one decimal digit. -/
def digit? (c : Char) : Option Nat :=
  if '0' ≤ c ∧ c ≤ '9' then some (c.toNat - 48) else none

/-- Read exactly two decimal digits. -/
def read2 : List Char → Option (Nat × List Char)
  | c1 :: c2 :: rest =>
    match digit? c1, digit? c2 with
    | some a, some b => some (10 * a + b, rest)
    | _, _ => none
  | _ => none

/-- Read exactly four decimal digits. -/
def read4 (cs : List Char) : Option (Nat × List Char) :=
  (read2 cs).bind fun p1 => (read2 p1.2).map fun p2 => (100 * p1.1 + p2.1, p2.2)

/-- Expect a fixed character. -/
def expect (c : Char) : List Char → Option (List Char)
  | c' :: rest => if c' = c then some rest else none
  | [] => none

/-- Render civil fields as the RFC 3339 date-time body
`YYYY-MM-DDTHH:MM:SS`. -/
def fmtCivil (c : Civil) : List Char :=
  pad4 c.y ++ '-' :: pad2 c.mo ++ '-' :: pad2 c.d ++ 'T' :: pad2 c.h ++
    ':' :: pad2 c.mi ++ ':' :: pad2 c.s

/-- Render a UTC offset in minutes as `±HH:MM`, as chrono's `%:z` /
`to_rfc3339` does (a zero offset prints as `+00:00`). -/
def fmtOffset (off : Int) : List Char :=
  (if off < 0 then '-' else '+') :: pad2 (off.natAbs / 60) ++ ':' :: pad2 (off.natAbs % 60)

/-- Parse the trailing RFC 3339 offset: `Z` or `±HH:MM`, whole input
consumed. -/
def parseOffset : List Char → Option Int
  | [] => none
  | c :: rest =>
    if c = 'Z' then (if rest = [] then some 0 else none)
    else if c = '+' ∨ c = '-' then
      (read2 rest).bind fun p1 =>
      (expect ':' p1.2).bind fun r2 =>
      (read2 r2).bind fun p2 =>
      if p2.2 = [] ∧ p1.1 < 24 ∧ p2.1 < 60 then
        some (if c = '-' then -((p1.1 * 60 + p2.1 : Nat) : Int)
              else ((p1.1 * 60 + p2.1 : Nat) : Int))
      else none
    else none

/-- Parse an RFC 3339 date-time into civil fields (as written, i.e. in the
written offset's timezone) and the offset, validating field ranges as
chrono's parser does. -/
def parseCivilOffset (cs : List Char) : Option (Civil × Int) :=
  (read4 cs).bind fun py =>
  (expect '-' py.2).bind fun r1 =>
  (read2 r1).bind fun pmo =>
  (expect '-' pmo.2).bind fun r2 =>
  (read2 r2).bind fun pd =>
  (expect 'T' pd.2).bind fun r3 =>
  (read2 r3).bind fun ph =>
  (expect ':' ph.2).bind fun r4 =>
  (read2 r4).bind fun pmi =>
  (expect ':' pmi.2).bind fun r5 =>
  (read2 r5).bind fun ps =>
  (parseOffset ps.2).bind fun off =>
  if 1 ≤ pmo.1 ∧ pmo.1 ≤ 12 ∧ 1 ≤ pd.1 ∧ pd.1 ≤ daysInMonth py.1 pmo.1 ∧
      ph.1 < 24 ∧ pmi.1 < 60 ∧ ps.1 < 60 then
    some (⟨py.1, pmo.1, pd.1, ph.1, pmi.1, ps.1⟩, off)
  else none

/-- `DateTime::to_rfc3339` (used by `serialize_date`, src/main.rs:224-226):
format the datetime's own-timezone civil fields followed by its offset. -/
def to_rfc3339 (t : DT) : String :=
  ⟨fmtCivil t.localFields ++ fmtOffset t.offsetMin⟩

/-- `DateTime::parse_from_rfc3339`: on success the resulting value keeps the
written offset, and its naive UTC part is the written fields shifted back by
that offset. -/
def parse_from_rfc3339 (s : String) : Option DT :=
  (parseCivilOffset s.data).map fun p =>
    { naive := addMinutes p.1 (-p.2), offsetMin := p.2 }

/-- `serialize_date` (src/main.rs:224-226). -/
def serialize_date (t : DT) : String := to_rfc3339 t

/-- Panic message of the `unwrap` in `deserialize_date` (src/main.rs:231). -/
def datePanicMsg : String := "called Result::unwrap on an Err value: invalid rfc3339 date"

/-- `deserialize_date` (src/main.rs:228-233), parameterised by the local
timezone `L`: parse the string (the `unwrap` panics on failure — the
`CR:` comment in the source flags exactly this) and convert to `Local`.
`with_timezone` keeps the naive UTC part and recomputes the offset. -/
def deserialize_date (L : Civil → Int) (s : String) : Except RunError DT :=
  match parse_from_rfc3339 s with
  | none => .error (.panicAbort datePanicMsg)
  | some t => .ok { naive := t.naive, offsetMin := L t.naive }

/-- One record as it sits inside the JSON cache file: all struct fields with
the date already rendered to its RFC 3339 string.  The JSON layer itself
(serde_json) round-trips plain strings exactly and is external to this
repository, so the file is modelled at this level. -/
structure WireEntry where
  id : String
  message_id : String
  from_addr : String
  subject : String
  date : String
deriving DecidableEq

/-- Serialisation of one `Entry` (serde `Serialize` with
`serialize_with = serialize_date`). -/
def serialize_entry (e : Entry) : WireEntry :=
  ⟨e.id, e.message_id, e.from_addr, e.subject, serialize_date e.date⟩

/-- Deserialisation of one `WireEntry` (serde `Deserialize` with
`deserialize_with = deserialize_date`). -/
def deserialize_entry (L : Civil → Int) (w : WireEntry) : Except RunError Entry :=
  match deserialize_date L w.date with
  | .error er => .error er
  | .ok t => .ok ⟨w.id, w.message_id, w.from_addr, w.subject, t⟩

/-- Deserialise a whole cached list in order; serde aborts at the first
failing element. -/
def deserialize_entries (L : Civil → Int) : List WireEntry → Except RunError (List Entry)
  | [] => .ok []
  | w :: ws =>
    match deserialize_entry L w with
    | .error er => .error er
    | .ok e =>
      match deserialize_entries L ws with
      | .error er => .error er
      | .ok es => .ok (e :: es)

/-- The possible states of the snapshot file on disk: absent, present but
not a valid JSON array of records, or a well-formed JSON array of records
(whose date strings may still be arbitrary). -/
inductive CacheFile where
  | absent : CacheFile
  | malformedJson : CacheFile
  | wellFormed : List WireEntry → CacheFile
deriving DecidableEq

/-- `save_to_cache` (src/main.rs:260-264): write the JSON rendering of the
entry list. -/
def save_to_cache (es : List Entry) : CacheFile :=
  .wellFormed (es.map serialize_entry)

/-- `load_from_cache` (src/main.rs:266-270): `File::open` failure surfaces
as `NotFound`, a serde_json failure as `ParseError`; a date string that does
not parse panics inside `deserialize_date` (modelled as `panicAbort`). -/
def load_from_cache (L : Civil → Int) : CacheFile → Except RunError (List Entry)
  | .absent => .error .notFound
  | .malformedJson => .error .parseError
  | .wellFormed ws => deserialize_entries L ws

/-- The cache-loading step of `main` (src/main.rs:81-87): an `Err` from
`load_from_cache` is caught by `if let Ok(..)` and the run proceeds with an
empty entry list, but a panic unwinds past it and aborts the run. -/
def cache_load_step (L : Civil → Int) (file : CacheFile) : Except RunError (List Entry) :=
  match load_from_cache L file with
  | .ok es => .ok es
  | .error (.panicAbort m) => .error (.panicAbort m)
  | .error _ => .ok []

/-- Validity of a `DateTime<Local>` with respect to the local timezone `L`:
in-range civil fields on both the UTC and the local side, an offset of less
than a day, and an offset that is what `L` assigns to the instant. -/
def ValidEntryDate (L : Civil → Int) (t : DT) : Prop :=
  validCivil t.naive = true ∧ validCivil t.localFields = true ∧
    t.offsetMin.natAbs ≤ 1439 ∧ L t.naive = t.offsetMin

/-- An entry that does not fire `break 'outer`: it is either skipped as
erroneous or is at/after the cutoff. -/
def entry_no_break (cutoff : DT) (e : Entry) : Prop :=
  dtLt e.date clearly_erroneous_date = true ∨ dtLt e.date cutoff = false

/-- An entry that fires `break 'outer`: not erroneous, strictly before the
cutoff. -/
def entry_breaks (cutoff : DT) (e : Entry) : Prop :=
  dtLt e.date clearly_erroneous_date = false ∧ dtLt e.date cutoff = true

instance (cutoff : DT) (e : Entry) : Decidable (entry_no_break cutoff e) := by
  unfold entry_no_break; infer_instance

instance (cutoff : DT) (e : Entry) : Decidable (entry_breaks cutoff e) := by
  unfold entry_breaks; infer_instance

theorem hasId_append (l l' : List Entry) (m : String) :
    hasId (l ++ l') m = (hasId l m || hasId l' m) := by
  simp [hasId, List.any_append]

theorem hasId_iff (l : List Entry) (m : String) :
    hasId l m = true ↔ m ∈ l.map Entry.message_id := by
  simp [hasId, List.any_eq_true]

theorem sync_page_extends (cutoff : DT) (page es : List Entry) :
    ∃ ext, (sync_page cutoff page es).1 = es ++ ext ∧
      ∀ x ∈ ext, x ∈ page ∧ dtLt x.date clearly_erroneous_date = false ∧
        dtLt x.date cutoff = false := by
  induction page generalizing es with
  | nil => exact ⟨[], by simp [sync_page]⟩
  | cons e rest ih =>
    cases hse : dtLt e.date clearly_erroneous_date with
    | true =>
      obtain ⟨ext, h1, h2⟩ := ih es
      exact ⟨ext, by simp [sync_page, hse, h1], fun x hx =>
        ⟨List.mem_cons_of_mem _ (h2 x hx).1, (h2 x hx).2⟩⟩
    | false =>
      cases hcu : dtLt e.date cutoff with
      | true => exact ⟨[], by simp [sync_page, hse, hcu]⟩
      | false =>
        cases hid : hasId es e.message_id with
        | true =>
          obtain ⟨ext, h1, h2⟩ := ih es
          exact ⟨ext, by simp [sync_page, hse, hcu, hid, h1], fun x hx =>
            ⟨List.mem_cons_of_mem _ (h2 x hx).1, (h2 x hx).2⟩⟩
        | false =>
          obtain ⟨ext, h1, h2⟩ := ih (es ++ [e])
          refine ⟨e :: ext, by simp [sync_page, hse, hcu, hid, h1], fun x hx => ?_⟩
          rcases List.mem_cons.mp hx with hx | hx
          · subst hx; exact ⟨List.mem_cons_self _ _, hse, hcu⟩
          · exact ⟨List.mem_cons_of_mem _ (h2 x hx).1, (h2 x hx).2⟩

theorem sync_loop_extends (cutoff : DT) (pages : List (List Entry))
    (es : List Entry) (n : Nat) :
    ∃ ext, (sync_loop cutoff pages es n).1 = es ++ ext ∧
      ∀ x ∈ ext, (∃ p ∈ pages, x ∈ p) ∧ dtLt x.date clearly_erroneous_date = false ∧
        dtLt x.date cutoff = false := by
  induction pages generalizing es n with
  | nil => exact ⟨[], by simp [sync_loop]⟩
  | cons page rest ih =>
    cases hemp : page.isEmpty with
    | true => exact ⟨[], by simp [sync_loop, hemp]⟩
    | false =>
      obtain ⟨ext1, h1, h2⟩ := sync_page_extends cutoff page es
      cases hbr : (sync_page cutoff page es).2 with
      | true =>
        refine ⟨ext1, by simp [sync_loop, hemp, hbr, h1], fun x hx => ?_⟩
        exact ⟨⟨page, List.mem_cons_self _ _, (h2 x hx).1⟩, (h2 x hx).2⟩
      | false =>
        obtain ⟨ext2, g1, g2⟩ := ih (sync_page cutoff page es).1 (n + 1)
        refine ⟨ext1 ++ ext2, ?_, fun x hx => ?_⟩
        · rw [h1] at g1
          simp [sync_loop, hemp, hbr, g1, h1, List.append_assoc]
        · rcases List.mem_append.mp hx with hx | hx
          · exact ⟨⟨page, List.mem_cons_self _ _, (h2 x hx).1⟩, (h2 x hx).2⟩
          · obtain ⟨⟨p, hp, hxp⟩, hd⟩ := g2 x hx
            exact ⟨⟨p, List.mem_cons_of_mem _ hp, hxp⟩, hd⟩

theorem mem_sync (cutoff : DT) (init : List Entry) (pages : List (List Entry))
    (x : Entry) (hx : x ∈ (sync init pages cutoff).1) :
    x ∈ init ∨ (dtLt x.date clearly_erroneous_date = false ∧ dtLt x.date cutoff = false) := by
  obtain ⟨ext, h1, h2⟩ := sync_loop_extends cutoff pages init 0
  rw [sync] at hx
  rw [h1] at hx
  rcases List.mem_append.mp hx with hx | hx
  · exact Or.inl hx
  · exact Or.inr (h2 x hx).2

theorem sync_retains (cutoff : DT) (init : List Entry) (pages : List (List Entry)) :
    ∃ ext, (sync init pages cutoff).1 = init ++ ext := by
  obtain ⟨ext, h1, _⟩ := sync_loop_extends cutoff pages init 0
  exact ⟨ext, h1⟩

theorem sync_page_nodup (cutoff : DT) (page es : List Entry)
    (h : (es.map Entry.message_id).Nodup) :
    (((sync_page cutoff page es).1.map Entry.message_id)).Nodup := by
  induction page generalizing es with
  | nil => simpa [sync_page] using h
  | cons e rest ih =>
    cases hse : dtLt e.date clearly_erroneous_date with
    | true => simpa [sync_page, hse] using ih es h
    | false =>
      cases hcu : dtLt e.date cutoff with
      | true => simpa [sync_page, hse, hcu] using h
      | false =>
        cases hid : hasId es e.message_id with
        | true => simpa [sync_page, hse, hcu, hid] using ih es h
        | false =>
          have hm : e.message_id ∉ es.map Entry.message_id := by
            intro hc
            rw [← hasId_iff] at hc
            simp [hc] at hid
          have : ((es ++ [e]).map Entry.message_id).Nodup := by
            simp [List.nodup_append, h, hm]
          simpa [sync_page, hse, hcu, hid] using ih (es ++ [e]) this

theorem sync_loop_nodup (cutoff : DT) (pages : List (List Entry))
    (es : List Entry) (n : Nat) (h : (es.map Entry.message_id).Nodup) :
    (((sync_loop cutoff pages es n).1.map Entry.message_id)).Nodup := by
  induction pages generalizing es n with
  | nil => simpa [sync_loop] using h
  | cons page rest ih =>
    cases hemp : page.isEmpty with
    | true => simpa [sync_loop, hemp] using h
    | false =>
      cases hbr : (sync_page cutoff page es).2 with
      | true => simpa [sync_loop, hemp, hbr] using sync_page_nodup cutoff page es h
      | false =>
        simpa [sync_loop, hemp, hbr] using
          ih (sync_page cutoff page es).1 (n + 1) (sync_page_nodup cutoff page es h)

theorem sync_page_stable (cutoff : DT) (page : List Entry) :
    ∀ A B : List Entry,
      (∀ m, hasId (sync_page cutoff page A).1 m = true → hasId B m = true) →
      sync_page cutoff page B = (B, (sync_page cutoff page A).2) := by
  induction page with
  | nil => intro A B _; simp [sync_page]
  | cons e rest ih =>
    intro A B h
    cases hse : dtLt e.date clearly_erroneous_date with
    | true =>
      have := ih A B (by intro m hm; exact h m (by simpa [sync_page, hse] using hm))
      simp [sync_page, hse, this]
    | false =>
      cases hcu : dtLt e.date cutoff with
      | true => simp [sync_page, hse, hcu]
      | false =>
        -- after processing `e` on the A side the id of `e` is in the list,
        -- hence (through h) also in B, so the B side skips it
        have hstepA : sync_page cutoff (e :: rest) A =
            sync_page cutoff rest (if hasId A e.message_id then A else A ++ [e]) := by
          cases hid : hasId A e.message_id <;> simp [sync_page, hse, hcu, hid]
        have hidA' : hasId (if hasId A e.message_id then A else A ++ [e]) e.message_id = true := by
          cases hid : hasId A e.message_id with
          | true => simp [hid]
          | false => simp [hid, hasId_append, hasId]
        have hidRes : hasId (sync_page cutoff rest
            (if hasId A e.message_id then A else A ++ [e])).1 e.message_id = true := by
          obtain ⟨ext, h1, _⟩ :=
            sync_page_extends cutoff rest (if hasId A e.message_id then A else A ++ [e])
          rw [h1, hasId_append, hidA']
          simp
        have hidB : hasId B e.message_id = true := by
          apply h
          rw [hstepA]
          exact hidRes
        have := ih (if hasId A e.message_id then A else A ++ [e]) B
          (by intro m hm; apply h; rw [hstepA]; exact hm)
        have hB : sync_page cutoff (e :: rest) B = sync_page cutoff rest B := by
          simp [sync_page, hse, hcu, hidB]
        rw [hB, this, hstepA]

theorem sync_loop_stable (cutoff : DT) (pages : List (List Entry)) :
    ∀ (A B : List Entry) (n n' : Nat),
      (∀ m, hasId (sync_loop cutoff pages A n).1 m = true → hasId B m = true) →
      (sync_loop cutoff pages B n').1 = B := by
  induction pages with
  | nil => intro A B n n' _; simp [sync_loop]
  | cons page rest ih =>
    intro A B n n' h
    cases hemp : page.isEmpty with
    | true => simp [sync_loop, hemp]
    | false =>
      cases hbr : (sync_page cutoff page A).2 with
      | true =>
        have hstab := sync_page_stable cutoff page A B
          (by intro m hm; apply h; simpa [sync_loop, hemp, hbr] using hm)
        simp [sync_loop, hemp, hstab, hbr]
      | false =>
        have hsub : ∀ m, hasId (sync_page cutoff page A).1 m = true → hasId B m = true := by
          intro m hm
          apply h
          obtain ⟨ext, h1, _⟩ := sync_loop_extends cutoff rest (sync_page cutoff page A).1 (n + 1)
          simp only [sync_loop, hemp]
          simp only [Bool.false_eq_true, if_false, hbr]
          rw [h1, hasId_append, hm]
          simp
        have hstab := sync_page_stable cutoff page A B hsub
        have hrec := ih (sync_page cutoff page A).1 B (n + 1) (n' + 1)
          (by intro m hm; apply h; simpa [sync_loop, hemp, hbr] using hm)
        simp [sync_loop, hemp, hstab, hbr, hrec]

theorem sync_page_no_break (cutoff : DT) (page : List Entry)
    (h : ∀ e ∈ page, entry_no_break cutoff e) :
    ∀ es, (sync_page cutoff page es).2 = false := by
  induction page with
  | nil => intro es; simp [sync_page]
  | cons e rest ih =>
    intro es
    have hrest : ∀ x ∈ rest, entry_no_break cutoff x :=
      fun x hx => h x (List.mem_cons_of_mem _ hx)
    cases hse : dtLt e.date clearly_erroneous_date with
    | true => simp [sync_page, hse, ih hrest]
    | false =>
      have hcu : dtLt e.date cutoff = false := by
        rcases h e (List.mem_cons_self _ _) with hc | hc
        · rw [hse] at hc; exact absurd hc (by simp)
        · exact hc
      cases hid : hasId es e.message_id with
      | true => simp [sync_page, hse, hcu, hid, ih hrest]
      | false => simp [sync_page, hse, hcu, hid, ih hrest]

theorem sync_page_break_at (cutoff : DT) (pre : List Entry) (e : Entry)
    (hpre : ∀ x ∈ pre, entry_no_break cutoff x) (he : entry_breaks cutoff e) :
    ∀ (post es : List Entry),
      sync_page cutoff (pre ++ e :: post) es = ((sync_page cutoff pre es).1, true) := by
  induction pre with
  | nil =>
    intro post es
    simp [sync_page, he.1, he.2]
  | cons x pre' ih =>
    intro post es
    have hpre' : ∀ y ∈ pre', entry_no_break cutoff y :=
      fun y hy => hpre y (List.mem_cons_of_mem _ hy)
    cases hse : dtLt x.date clearly_erroneous_date with
    | true => simp [sync_page, hse, ih hpre' post es]
    | false =>
      have hcu : dtLt x.date cutoff = false := by
        rcases hpre x (List.mem_cons_self _ _) with hc | hc
        · rw [hse] at hc; exact absurd hc (by simp)
        · exact hc
      cases hid : hasId es x.message_id with
      | true => simp [sync_page, hse, hcu, hid, ih hpre' post es]
      | false => simp [sync_page, hse, hcu, hid, ih hpre' post (es ++ [x])]

theorem sync_loop_skip (cutoff : DT) (P1 : List (List Entry))
    (h : ∀ p ∈ P1, p ≠ [] ∧ ∀ e ∈ p, entry_no_break cutoff e) :
    ∀ (rest : List (List Entry)) (es : List Entry) (n : Nat),
      sync_loop cutoff (P1 ++ rest) es n =
        sync_loop cutoff rest
          (P1.foldl (fun a p => (sync_page cutoff p a).1) es) (n + P1.length) := by
  induction P1 with
  | nil => intro rest es n; simp
  | cons p P1' ih =>
    intro rest es n
    obtain ⟨hne, hnb⟩ := h p (List.mem_cons_self _ _)
    have h' : ∀ q ∈ P1', q ≠ [] ∧ ∀ e ∈ q, entry_no_break cutoff e :=
      fun q hq => h q (List.mem_cons_of_mem _ hq)
    have hemp : p.isEmpty = false := by
      cases p with
      | nil => exact absurd rfl hne
      | cons a as => simp
    have hnb' : (sync_page cutoff p es).2 = false := sync_page_no_break cutoff p hnb es
    have := ih h' rest (sync_page cutoff p es).1 (n + 1)
    have harith : n + 1 + P1'.length = n + (P1'.length + 1) := by omega
    simp only [List.cons_append, sync_loop, hemp, Bool.false_eq_true, if_false, hnb',
      List.foldl_cons, List.length_cons, List.append_eq]
    rw [this, harith]

theorem sumCounts_bump {κ : Type} [DecidableEq κ] (l : List (κ × Nat)) (k : κ) :
    sumCounts (bump l k) = sumCounts l + 1 := by
  induction l with
  | nil => simp [bump, sumCounts]
  | cons p rest ih =>
    obtain ⟨k', c⟩ := p
    by_cases h : k' = k
    · simp [bump, h, sumCounts]
      omega
    · simp [bump, h, sumCounts] at ih ⊢
      omega

theorem bump_ne_nil {κ : Type} [DecidableEq κ] (l : List (κ × Nat)) (k : κ) :
    bump l k ≠ [] := by
  cases l with
  | nil => simp [bump]
  | cons p rest =>
    obtain ⟨k', c⟩ := p
    by_cases h : k' = k <;> simp [bump, h]

theorem count_by_date_raw_sum (es : List Entry) :
    ∀ acc, sumCounts (count_by_date_raw es acc) =
      sumCounts acc + (es.filter
        (fun e => !dtLt e.date clearly_erroneous_date)).length := by
  induction es with
  | nil => intro acc; simp [count_by_date_raw]
  | cons e rest ih =>
    intro acc
    cases hse : dtLt e.date clearly_erroneous_date with
    | true => simp [count_by_date_raw, hse, ih acc, List.filter_cons]
    | false =>
      simp [count_by_date_raw, hse, ih (bump acc (entryDay e)), List.filter_cons,
        sumCounts_bump]
      omega

theorem count_by_date_raw_nil_iff (es : List Entry) :
    ∀ acc, count_by_date_raw es acc = [] ↔
      acc = [] ∧ es.filter (fun e => !dtLt e.date clearly_erroneous_date) = [] := by
  induction es with
  | nil => intro acc; simp [count_by_date_raw]
  | cons e rest ih =>
    intro acc
    cases hse : dtLt e.date clearly_erroneous_date with
    | true => simp [count_by_date_raw, hse, ih acc, List.filter_cons]
    | false =>
      simp [count_by_date_raw, hse, ih (bump acc (entryDay e)), List.filter_cons,
        bump_ne_nil]

theorem count_by_date_sum (es : List Entry) :
    sumCounts (count_by_date es) =
      (es.filter (fun e => !dtLt e.date clearly_erroneous_date)).length := by
  have hperm : List.Perm (count_by_date es) (count_by_date_raw es []) :=
    List.perm_insertionSort dayCountLe (count_by_date_raw es [])
  have := (hperm.map Prod.snd).sum_eq
  unfold sumCounts
  rw [this]
  have := count_by_date_raw_sum es []
  simpa [sumCounts] using this

theorem count_by_date_nil_iff (es : List Entry) :
    count_by_date es = [] ↔
      es.filter (fun e => !dtLt e.date clearly_erroneous_date) = [] := by
  have hperm : List.Perm (count_by_date es) (count_by_date_raw es []) :=
    List.perm_insertionSort dayCountLe (count_by_date_raw es [])
  constructor
  · intro h
    rw [h] at hperm
    have hnil : count_by_date_raw es [] = [] := hperm.nil_eq.symm
    exact ((count_by_date_raw_nil_iff es []).mp hnil).2
  · intro h
    have : count_by_date_raw es [] = [] := (count_by_date_raw_nil_iff es []).mpr ⟨rfl, h⟩
    simp [count_by_date, this, List.insertionSort]

theorem count_by_domain_aux_ok (es : List Entry)
    (h : ∀ e ∈ es, (parse_email_domain e.from_addr).isSome) :
    ∀ acc, ∃ m, count_by_domain_aux es acc = .ok m ∧ sumCounts m = sumCounts acc + es.length := by
  induction es with
  | nil => intro acc; exact ⟨acc, rfl, by simp⟩
  | cons e rest ih =>
    intro acc
    have he := h e (List.mem_cons_self _ _)
    obtain ⟨dom, hdom⟩ := Option.isSome_iff_exists.mp he
    have hrest : ∀ x ∈ rest, (parse_email_domain x.from_addr).isSome :=
      fun x hx => h x (List.mem_cons_of_mem _ hx)
    obtain ⟨m, hm, hsum⟩ := ih hrest (bump acc dom)
    refine ⟨m, ?_, ?_⟩
    · simp [count_by_domain_aux, hdom, hm]
    · rw [hsum, sumCounts_bump]
      simp
      omega

theorem count_by_domain_aux_bad (es : List Entry)
    (h : ∃ e ∈ es, parse_email_domain e.from_addr = none) :
    ∀ acc, count_by_domain_aux es acc = .error (.panicAbort addrPanicMsg) := by
  induction es with
  | nil => simp at h
  | cons e rest ih =>
    intro acc
    cases hp : parse_email_domain e.from_addr with
    | none => simp [count_by_domain_aux, hp]
    | some dom =>
      have : ∃ x ∈ rest, parse_email_domain x.from_addr = none := by
        rcases h with ⟨x, hx, hxn⟩
        rcases List.mem_cons.mp hx with hx | hx
        · subst hx; rw [hp] at hxn; exact absurd hxn (by simp)
        · exact ⟨x, hx, hxn⟩
      simp [count_by_domain_aux, hp, ih this (bump acc dom)]

theorem validCivil_iff (c : Civil) :
    validCivil c = true ↔
      1 ≤ c.y ∧ c.y ≤ 9999 ∧ 1 ≤ c.mo ∧ c.mo ≤ 12 ∧ 1 ≤ c.d ∧
        c.d ≤ daysInMonth c.y c.mo ∧ c.h < 24 ∧ c.mi < 60 ∧ c.s < 60 := by
  simp [validCivil, Bool.and_eq_true, decide_eq_true_eq, and_assoc]

theorem daysInMonth_twelve (y : Nat) : daysInMonth y 12 = 31 := by
  norm_num [daysInMonth]

theorem daysInMonth_le (y mo : Nat) : daysInMonth y mo ≤ 31 := by
  unfold daysInMonth
  split_ifs <;> omega

theorem prevDay_nextDay (y mo d : Nat) (hmo1 : 1 ≤ mo) (hmo2 : mo ≤ 12)
    (hd1 : 1 ≤ d) (hd2 : d ≤ daysInMonth y mo) :
    prevDay (nextDay y mo d).1 (nextDay y mo d).2.1 (nextDay y mo d).2.2 = (y, mo, d) := by
  unfold nextDay
  split_ifs with h1 h2
  · simp only [prevDay]
    rw [if_pos (by omega)]
    rw [Nat.add_sub_cancel]
  · simp only [prevDay]
    rw [if_neg (by omega), if_pos (by omega)]
    have hd : d = daysInMonth y mo := by omega
    rw [Nat.add_sub_cancel, hd]
  · have hmo : mo = 12 := by omega
    have hd : d = 31 := by
      rw [hmo, daysInMonth_twelve] at hd2 h1
      omega
    simp only [prevDay]
    rw [if_neg (by omega), if_neg (by omega)]
    rw [Nat.add_sub_cancel, hmo, hd]

theorem nextDay_prevDay (y mo d : Nat) (hy : 1 ≤ y) (hmo1 : 1 ≤ mo) (hmo2 : mo ≤ 12)
    (hd1 : 1 ≤ d) (hd2 : d ≤ daysInMonth y mo) :
    nextDay (prevDay y mo d).1 (prevDay y mo d).2.1 (prevDay y mo d).2.2 = (y, mo, d) := by
  unfold prevDay
  split_ifs with h1 h2
  · simp only [nextDay]
    rw [if_pos (by omega)]
    rw [Nat.sub_add_cancel (by omega)]
  · simp only [nextDay]
    rw [if_neg (by omega), if_pos (by omega)]
    have hd : d = 1 := by omega
    rw [Nat.sub_add_cancel (by omega), hd]
  · have hmo : mo = 1 := by omega
    have hd : d = 1 := by omega
    simp only [nextDay]
    rw [if_neg (by rw [daysInMonth_twelve]; omega), if_neg (by omega)]
    rw [Nat.sub_add_cancel (by omega), hmo, hd]

theorem addMinutes_cancel (c : Civil) (off : Int)
    (hc : validCivil c = true) (hoff : off.natAbs ≤ 1439) :
    addMinutes (addMinutes c off) (-off) = c := by
  obtain ⟨hy1, hy2, hmo1, hmo2, hd1, hd2, hh, hmi, hs⟩ := (validCivil_iff c).mp hc
  obtain ⟨y, mo, d, h, mi, s⟩ := c
  simp only at hy1 hy2 hmo1 hmo2 hd1 hd2 hh hmi hs
  have hpn := prevDay_nextDay y mo d hmo1 hmo2 hd1 hd2
  have hnp := nextDay_prevDay y mo d hy1 hmo1 hmo2 hd1 hd2
  by_cases h1 : ((h * 60 + mi : Nat) : Int) + off < 0
  · -- the forward step went to the previous day; the backward step returns
    have e1 : addMinutes ⟨y, mo, d, h, mi, s⟩ off =
        ⟨(prevDay y mo d).1, (prevDay y mo d).2.1, (prevDay y mo d).2.2,
          (((h * 60 + mi : Nat) : Int) + off + 1440).toNat / 60,
          (((h * 60 + mi : Nat) : Int) + off + 1440).toNat % 60, s⟩ := by
      simp only [addMinutes]
      rw [if_pos h1]
    rw [e1]
    simp only [addMinutes]
    rw [if_neg (by omega), if_neg (by omega)]
    rw [hnp]
    simp only [Civil.mk.injEq, and_true, true_and, eq_self_iff_true]
    omega
  · by_cases h2 : ((h * 60 + mi : Nat) : Int) + off < 1440
    · -- same-day case in both directions
      have e1 : addMinutes ⟨y, mo, d, h, mi, s⟩ off =
          ⟨y, mo, d, (((h * 60 + mi : Nat) : Int) + off).toNat / 60,
            (((h * 60 + mi : Nat) : Int) + off).toNat % 60, s⟩ := by
        simp only [addMinutes]
        rw [if_neg h1, if_pos h2]
      rw [e1]
      simp only [addMinutes]
      rw [if_neg (by omega), if_pos (by omega)]
      simp only [Civil.mk.injEq, and_true, true_and, eq_self_iff_true]
      omega
    · -- the forward step went to the next day; the backward step returns
      have e1 : addMinutes ⟨y, mo, d, h, mi, s⟩ off =
          ⟨(nextDay y mo d).1, (nextDay y mo d).2.1, (nextDay y mo d).2.2,
            (((h * 60 + mi : Nat) : Int) + off - 1440).toNat / 60,
            (((h * 60 + mi : Nat) : Int) + off - 1440).toNat % 60, s⟩ := by
        simp only [addMinutes]
        rw [if_neg h1, if_neg h2]
      rw [e1]
      simp only [addMinutes]
      rw [if_pos (by omega)]
      rw [hpn]
      simp only [Civil.mk.injEq, and_true, true_and, eq_self_iff_true]
      omega

theorem digit?_digitChar : ∀ d, d < 10 → digit? (digitChar d) = some d := by decide

theorem read2_pad2 (n : Nat) (hn : n < 100) (r : List Char) :
    read2 (pad2 n ++ r) = some (n, r) := by
  have h1 := digit?_digitChar (n / 10) (by omega)
  have h2 := digit?_digitChar (n % 10) (by omega)
  simp only [pad2, List.cons_append, List.nil_append, read2, h1, h2]
  have hv : 10 * (n / 10) + n % 10 = n := by omega
  rw [hv]

theorem read4_pad4 (n : Nat) (hn : n < 10000) (r : List Char) :
    read4 (pad4 n ++ r) = some (n, r) := by
  simp only [pad4, List.append_assoc, read4,
    read2_pad2 (n / 100) (by omega), read2_pad2 (n % 100) (by omega),
    Option.some_bind, Option.map_some']
  have hv : 100 * (n / 100) + n % 100 = n := by omega
  rw [hv]

theorem expect_cons (c : Char) (r : List Char) : expect c (c :: r) = some r := by
  simp [expect]

theorem read2_pad2_nil (n : Nat) (hn : n < 100) : read2 (pad2 n) = some (n, []) := by
  have := read2_pad2 n hn []
  simpa using this

theorem parseOffset_fmtOffset (off : Int) (hoff : off.natAbs ≤ 1439) :
    parseOffset (fmtOffset off) = some off := by
  have hdiv : off.natAbs / 60 < 24 := by omega
  have hmod : off.natAbs % 60 < 60 := by omega
  by_cases hs : off < 0
  · simp [fmtOffset, if_pos hs, List.cons_append, parseOffset,
      read2_pad2 (off.natAbs / 60) (by omega), expect_cons,
      read2_pad2_nil (off.natAbs % 60) (by omega), hdiv, hmod,
      -Int.natCast_natAbs]
    omega
  · simp [fmtOffset, if_neg hs, List.cons_append, parseOffset,
      read2_pad2 (off.natAbs / 60) (by omega), expect_cons,
      read2_pad2_nil (off.natAbs % 60) (by omega), hdiv, hmod,
      -Int.natCast_natAbs]
    omega

theorem parseCivilOffset_fmt (c : Civil) (off : Int)
    (hc : validCivil c = true) (hoff : off.natAbs ≤ 1439) :
    parseCivilOffset (fmtCivil c ++ fmtOffset off) = some (c, off) := by
  obtain ⟨hy1, hy2, hmo1, hmo2, hd1, hd2, hh, hmi, hs⟩ := (validCivil_iff c).mp hc
  obtain ⟨y, mo, d, h, mi, s⟩ := c
  simp only at hy1 hy2 hmo1 hmo2 hd1 hd2 hh hmi hs
  have hd31 : d ≤ 31 := le_trans hd2 (daysInMonth_le y mo)
  simp only [fmtCivil, List.append_assoc, List.cons_append, parseCivilOffset,
    read4_pad4 y (by omega), Option.some_bind, expect_cons,
    read2_pad2 mo (by omega), read2_pad2 d (by omega), read2_pad2 h (by omega),
    read2_pad2 mi (by omega), read2_pad2 s (by omega),
    parseOffset_fmtOffset off hoff]
  rw [if_pos ⟨hmo1, hmo2, hd1, hd2, hh, hmi, hs⟩]

theorem deserialize_serialize (L : Civil → Int) (t : DT) (hv : ValidEntryDate L t) :
    deserialize_date L (serialize_date t) = .ok t := by
  obtain ⟨naive, off⟩ := t
  obtain ⟨h1, h2, h3, h4⟩ := hv
  simp only [DT.localFields] at h2
  simp only at h1 h3 h4
  unfold serialize_date to_rfc3339 deserialize_date parse_from_rfc3339
  simp only [DT.localFields]
  rw [parseCivilOffset_fmt (addMinutes naive off) off h2 h3]
  simp only [Option.map_some']
  rw [addMinutes_cancel naive off h1 h3]
  rw [h4]

theorem deserialize_serialize_entry (L : Civil → Int) (e : Entry)
    (hv : ValidEntryDate L e.date) :
    deserialize_entry L (serialize_entry e) = .ok e := by
  obtain ⟨i, m, f, sub, dt⟩ := e
  simp only [serialize_entry, deserialize_entry]
  rw [deserialize_serialize L dt hv]

theorem deserialize_serialize_entries (L : Civil → Int) (S : List Entry)
    (h : ∀ e ∈ S, ValidEntryDate L e.date) :
    deserialize_entries L (S.map serialize_entry) = .ok S := by
  induction S with
  | nil => simp [deserialize_entries]
  | cons e rest ih =>
    simp only [List.map_cons, deserialize_entries]
    rw [deserialize_serialize_entry L e (h e (List.mem_cons_self _ _))]
    rw [ih (fun x hx => h x (List.mem_cons_of_mem _ hx))]

instance (L : Civil → Int) (t : DT) : Decidable (ValidEntryDate L t) := by
  unfold ValidEntryDate; infer_instance

/-- Claim-side notion from the spec's words: a timestamp strictly after the
sentinel ("valid" in the sense of "not at or before the sentinel"). -/
def specPostSentinel (e : Entry) : Bool := dtLt clearly_erroneous_date e.date

/-- Claim-side report window from the spec's words: entries at or after the
cutoff (the code's filter is strict, `e.date > until`). -/
def spec_report_window (es : List Entry) (cutoff : DT) : List Entry :=
  es.filter (fun e => !dtLt e.date cutoff)

/-- Fixture: midnight UTC of a calendar day. -/
def dtOf (y mo d : Nat) : DT := ⟨⟨y, mo, d, 0, 0, 0⟩, 0⟩

/-- Fixture cutoff after the sentinel (a realistic lookback). -/
def cutoff2020 : DT := dtOf 2020 1 1

/-- Fixture cutoff before the sentinel (reachable with `--days` of about
17000 from today). -/
def cutoff1979 : DT := dtOf 1979 6 1

/-- Fixture entry dated exactly at the sentinel erroneous timestamp. -/
def entrySentinel : Entry := ⟨"i80", "m80", "a@b.c", "s80", dtOf 1980 1 1⟩

/-- Fixture entry strictly before the sentinel. -/
def entryAncient : Entry := ⟨"i70", "m70", "a@b.c", "s70", dtOf 1970 1 1⟩

/-- Fixture entry inside the 2020 window. -/
def entryJune : Entry := ⟨"iG", "mG", "g@h.i", "sG", dtOf 2020 6 1⟩

/-- Fixture entry inside the 2020 window, distinct id. -/
def entryJuly : Entry := ⟨"iG2", "mG2", "g2@h.i", "sG2", dtOf 2020 7 1⟩

/-- Fixture entry dated exactly at the 2020 cutoff. -/
def entryAtCutoff : Entry := ⟨"ic", "mc", "c@d.e", "sc", cutoff2020⟩

/-- Fixture entry after the sentinel but strictly before the 2020 cutoff. -/
def entryLate2019 : Entry := ⟨"iL", "mL", "l@m.n", "sL", dtOf 2019 12 1⟩

/-- Fixture entry with an unparseable sender address. -/
def entryBadAddr : Entry := ⟨"ib", "mb", "not-an-address", "sb", dtOf 2020 6 2⟩

/-- Fixture wire record whose date string is not RFC 3339. -/
def badDateWire : WireEntry := ⟨"i", "m", "a@b.c", "s", "not-a-date"⟩

/-- C1 (counterexample): the claim promises that an entry with timestamp at
or before the sentinel is never added to the snapshot and never counted by
the day aggregate, unconditionally.  With a cutoff earlier than the sentinel
(lookback of about 46 years, a legal `--days` value) an entry dated exactly
at the sentinel passes both guards — the sentinel check is strict
(src/main.rs:104) — is appended to the snapshot, and is counted by
`count_by_date` (whose skip is also strict, src/main.rs:157). -/
theorem C1_counterexample :
    dtLt clearly_erroneous_date entrySentinel.date = false ∧
    entrySentinel ∈ (sync [] [[entrySentinel]] cutoff1979).1 ∧
    sumCounts (count_by_date (sync [] [[entrySentinel]] cutoff1979).1) = 1 := by
  decide

/-- C1 (amended): provided the run's cutoff is strictly after the sentinel
(true for every realistic lookback), an entry with timestamp at or before
the sentinel that is not already in the loaded snapshot never appears in the
merged snapshot, hence not in the windowed report collection, and removing
it from the day-aggregate's input changes nothing. -/
theorem C1_sentinel_excluded (cutoff : DT) (init : List Entry)
    (pages : List (List Entry)) (e : Entry)
    (hcut : dtLt clearly_erroneous_date cutoff = true)
    (he : dtLt clearly_erroneous_date e.date = false)
    (hinit : e ∉ init) :
    e ∉ (sync init pages cutoff).1 ∧
      e ∉ report_window (sync init pages cutoff).1 cutoff ∧
      count_by_date ((sync init pages cutoff).1.filter (fun r => r ≠ e)) =
        count_by_date (sync init pages cutoff).1 := by
  have hmem : e ∉ (sync init pages cutoff).1 := by
    intro hx
    rcases mem_sync cutoff init pages e hx with h | ⟨_, hc⟩
    · exact hinit h
    · simp only [dtLt, decide_eq_true_eq, decide_eq_false_iff_not] at hcut he hc
      omega
  refine ⟨hmem, fun hx => hmem (List.mem_filter.mp hx).1, ?_⟩
  have hself : (sync init pages cutoff).1.filter (fun r => r ≠ e) =
      (sync init pages cutoff).1 := by
    apply List.filter_eq_self.mpr
    intro x hx
    simp only [decide_eq_true_eq]
    exact fun hxe => hmem (by rw [← hxe]; exact hx)
  rw [hself]

/-- C1 (witness): concrete instance of the amended claim. -/
theorem C1_witness :
    dtLt clearly_erroneous_date cutoff2020 = true ∧
    dtLt clearly_erroneous_date entrySentinel.date = false ∧
    entrySentinel ∉ (sync [] [[entrySentinel, entryJune]] cutoff2020).1 := by
  refine ⟨by decide, by decide, ?_⟩
  exact (C1_sentinel_excluded cutoff2020 [] [[entrySentinel, entryJune]] entrySentinel
    (by decide) (by decide) (by simp)).1

/-- C2 (counterexample): the claim says the loop exits immediately on the
first in-page entry strictly before the cutoff, discarding the remainder of
the page and requesting no further pages.  An entry strictly before the
sentinel is also strictly before the cutoff, but the code skips it with
`continue` (src/main.rs:104-107) instead of exiting: the later in-page entry
is still ingested and a further page is requested. -/
theorem C2_counterexample :
    dtLt entryAncient.date cutoff2020 = true ∧
    entryJune ∈ (sync [] [[entryAncient, entryJune]] cutoff2020).1 ∧
    (sync [] [[entryAncient, entryJune]] cutoff2020).2 = 2 := by
  decide

/-- C2 (amended): no record strictly before the cutoff is newly added;
pre-existing records are retained (the merged snapshot extends the loaded
one); and on the first in-page entry that is strictly before the cutoff AND
not strictly before the sentinel, the loop exits immediately: the rest of
that page and all subsequent pages are irrelevant to the result, and no
further page is requested. -/
theorem C2_cutoff (cutoff : DT) (init : List Entry) :
    (∀ pages x, x ∈ (sync init pages cutoff).1 →
      x ∈ init ∨ dtLt x.date cutoff = false) ∧
    (∀ pages, ∃ ext, (sync init pages cutoff).1 = init ++ ext) ∧
    (∀ P1 pre e post rest,
      (∀ p ∈ P1, p ≠ [] ∧ ∀ x ∈ p, entry_no_break cutoff x) →
      (∀ x ∈ pre, entry_no_break cutoff x) →
      entry_breaks cutoff e →
      sync init (P1 ++ (pre ++ e :: post) :: rest) cutoff =
        sync init (P1 ++ [pre ++ [e]]) cutoff ∧
      (sync init (P1 ++ (pre ++ e :: post) :: rest) cutoff).2 = P1.length + 1) := by
  refine ⟨?_, ?_, ?_⟩
  · intro pages x hx
    rcases mem_sync cutoff init pages x hx with h | ⟨_, hc⟩
    · exact Or.inl h
    · exact Or.inr hc
  · intro pages
    exact sync_retains cutoff init pages
  · intro P1 pre e post rest hP1 hpre he
    have hskip1 := sync_loop_skip cutoff P1 hP1 ((pre ++ e :: post) :: rest) init 0
    have hskip2 := sync_loop_skip cutoff P1 hP1 [pre ++ [e]] init 0
    have hne1 : (pre ++ e :: post).isEmpty = false := by simp
    have hne2 : (pre ++ [e]).isEmpty = false := by simp
    have hbk1 := sync_page_break_at cutoff pre e hpre he post
      (P1.foldl (fun a p => (sync_page cutoff p a).1) init)
    have hbk2 := sync_page_break_at cutoff pre e hpre he []
      (P1.foldl (fun a p => (sync_page cutoff p a).1) init)
    have e1 : sync init (P1 ++ (pre ++ e :: post) :: rest) cutoff =
        ((sync_page cutoff pre
          (P1.foldl (fun a p => (sync_page cutoff p a).1) init)).1, P1.length + 1) := by
      simp only [sync]
      rw [hskip1]
      simp only [sync_loop, hne1, Bool.false_eq_true, if_false, hbk1]
      simp
    have e2 : sync init (P1 ++ [pre ++ [e]]) cutoff =
        ((sync_page cutoff pre
          (P1.foldl (fun a p => (sync_page cutoff p a).1) init)).1, P1.length + 1) := by
      simp only [sync]
      rw [hskip2]
      simp only [sync_loop, hne2, Bool.false_eq_true, if_false, hbk2]
      simp
    exact ⟨e1.trans e2.symm, by rw [e1]⟩

/-- C2 (witness): concrete instance of the amended claim's exit behaviour. -/
theorem C2_witness :
    sync [] [[entryLate2019, entryJune]] cutoff2020 =
      sync [] [[entryLate2019]] cutoff2020 ∧
    (sync [] [[entryLate2019, entryJune]] cutoff2020).2 = 1 := by
  have h := (C2_cutoff cutoff2020 []).2.2 [] [] entryLate2019 [entryJune] []
    (by simp) (by simp) (by decide)
  simpa using h

/-- C3: running the sync loop a second time over the same pages, starting
from the first run's snapshot, changes nothing: the entry list (hence the
set of message ids) is unchanged. -/
theorem C3_idempotent (cutoff : DT) (S : List Entry) (R : List (List Entry)) :
    (sync (sync S R cutoff).1 R cutoff).1 = (sync S R cutoff).1 ∧
    ∀ m : String,
      m ∈ ((sync (sync S R cutoff).1 R cutoff).1.map Entry.message_id) ↔
        m ∈ ((sync S R cutoff).1.map Entry.message_id) := by
  have h : (sync_loop cutoff R (sync S R cutoff).1 0).1 = (sync S R cutoff).1 :=
    sync_loop_stable cutoff R S (sync S R cutoff).1 0 0 (fun _ hm => hm)
  exact ⟨h, fun m => by rw [show (sync (sync S R cutoff).1 R cutoff).1
    = (sync S R cutoff).1 from h]⟩

/-- C4: if the loaded entry list has pairwise distinct message ids, so does
the merged snapshot after any sequence of pages: an entry is appended only
when its id is absent from the known-id set, which is updated on every
append. -/
theorem C4_nodup (cutoff : DT) (init : List Entry) (pages : List (List Entry))
    (h : (init.map Entry.message_id).Nodup) :
    ((sync init pages cutoff).1.map Entry.message_id).Nodup :=
  sync_loop_nodup cutoff pages init 0 h

/-- C4 (witness): concrete instance. -/
theorem C4_witness :
    ([entryJune].map Entry.message_id).Nodup ∧
    ((sync [entryJune] [[entryJune, entryJuly]] cutoff2020).1.map Entry.message_id).Nodup :=
  ⟨by decide, C4_nodup cutoff2020 [entryJune] [[entryJune, entryJuly]] (by decide)⟩

/-- C5: persistence round-trips exactly.  For a snapshot of records whose
timestamps are well-formed local datetimes, saving and re-loading yields the
identical record list; equality here is structural, so each timestamp's
offset is preserved exactly. -/
theorem C5_round_trip (L : Civil → Int) (S : List Entry)
    (h : ∀ e ∈ S, ValidEntryDate L e.date) :
    load_from_cache L (save_to_cache S) = .ok S := by
  simp only [save_to_cache, load_from_cache]
  exact deserialize_serialize_entries L S h

/-- C5 (witness): concrete UTC-timezone instance. -/
theorem C5_witness :
    (∀ e ∈ [entryJune, entryJuly], ValidEntryDate (fun _ => 0) e.date) ∧
    load_from_cache (fun _ => 0) (save_to_cache [entryJune, entryJuly]) =
      .ok [entryJune, entryJuly] :=
  ⟨by decide, C5_round_trip (fun _ => 0) [entryJune, entryJuly] (by decide)⟩

/-- C6 (code evaluated at the failing input): an absent or JSON-malformed
cache file is indeed caught by the caller and the run proceeds with an empty
list; but a well-formed JSON cache whose date string does not parse as
RFC 3339 hits the `unwrap` in `deserialize_date` (src/main.rs:231, flagged
by the `CR:` comment) and panics, aborting the run instead of yielding an
error value the `if let Ok(..)` could treat as empty. -/
theorem C6_bad_date_panics :
    cache_load_step (fun _ => 0) (.wellFormed [badDateWire]) =
      .error (.panicAbort datePanicMsg) ∧
    cache_load_step (fun _ => 0) .absent = .ok [] ∧
    cache_load_step (fun _ => 0) .malformedJson = .ok [] := by
  decide

/-- C7 (counterexample): the claim counts as "valid" only timestamps
strictly after the sentinel, but `count_by_date` skips only timestamps
strictly BEFORE the sentinel (src/main.rs:157): a record dated exactly at
the sentinel is counted, so the day-aggregate total exceeds the claimed
number. -/
theorem C7_counterexample :
    sumCounts (count_by_date [entrySentinel]) = 1 ∧
    ([entrySentinel].filter specPostSentinel).length = 0 := by
  decide

/-- C7 (amended): the day-aggregate total equals the number of records NOT
STRICTLY BEFORE the sentinel (each contributing to exactly one bucket); if
every sender address parses, the domain aggregate exists and its total
equals the number of records; if any address fails to parse, the domain
aggregation aborts (panics) and produces no counts at all. -/
theorem C7_totals (es : List Entry) :
    sumCounts (count_by_date es) =
      (es.filter (fun e => !dtLt e.date clearly_erroneous_date)).length ∧
    ((∀ e ∈ es, (parse_email_domain e.from_addr).isSome) →
      ∃ m, count_by_domain es = .ok m ∧ sumCounts m = es.length) ∧
    ((∃ e ∈ es, parse_email_domain e.from_addr = none) →
      count_by_domain es = .error (.panicAbort addrPanicMsg)) := by
  refine ⟨count_by_date_sum es, ?_, ?_⟩
  · intro h
    obtain ⟨m, hm, hsum⟩ := count_by_domain_aux_ok es h []
    exact ⟨m, hm, by simpa [sumCounts] using hsum⟩
  · intro h
    exact count_by_domain_aux_bad es h []

/-- C7 (witness): concrete instances of all three parts. -/
theorem C7_witness :
    sumCounts (count_by_date [entryJune, entryJuly]) = 2 ∧
    (∃ m, count_by_domain [entryJune, entryJuly] = .ok m ∧ sumCounts m = 2) ∧
    count_by_domain [entryBadAddr] = .error (.panicAbort addrPanicMsg) := by
  obtain ⟨h1, h2, _⟩ := C7_totals [entryJune, entryJuly]
  obtain ⟨_, _, h3⟩ := C7_totals [entryBadAddr]
  refine ⟨by rw [h1]; decide, ?_, h3 ⟨entryBadAddr, by simp, by decide⟩⟩
  obtain ⟨m, hm, hs⟩ := h2 (by decide)
  exact ⟨m, hm, by rw [hs]; rfl⟩

/-- C8 (counterexample): the claim includes records with timestamp equal to
the cutoff in the per-window report input, but the code filters with the
strict `e.date > until` (src/main.rs:127-128): a record dated exactly at
the cutoff is excluded. -/
theorem C8_counterexample :
    entryAtCutoff.date = cutoff2020 ∧
    report_window [entryAtCutoff] cutoff2020 = [] ∧
    spec_report_window [entryAtCutoff] cutoff2020 = [entryAtCutoff] := by
  decide

/-- C8 (amended): the per-window report input contains exactly the merged
snapshot's records with timestamp STRICTLY AFTER the cutoff. -/
theorem C8_window (init : List Entry) (pages : List (List Entry)) (cutoff : DT)
    (e : Entry) :
    e ∈ report_window (sync init pages cutoff).1 cutoff ↔
      e ∈ (sync init pages cutoff).1 ∧ dtLt cutoff e.date = true := by
  simp [report_window, List.mem_filter]

/-- C9 (counterexample): the claim says a malformed sender address makes
domain aggregation fail with an `AddressParseError` propagated to the caller
as an error value; the code's `unwrap` (src/main.rs:201) panics instead —
`count_by_domain`'s Rust signature is a bare `HashMap`, so there is no error
channel for the caller. -/
theorem C9_counterexample :
    count_by_domain [entryBadAddr] = .error (.panicAbort addrPanicMsg) ∧
    RunError.panicAbort addrPanicMsg ≠ RunError.addressParseError := by
  decide

/-- C9 (amended): for every record collection containing at least one
unparseable sender address, domain aggregation aborts the run by panicking
at the first such record; the malformed record is neither silently dropped
nor miscounted — no aggregate is produced at all. -/
theorem C9_abort (es : List Entry)
    (h : ∃ e ∈ es, parse_email_domain e.from_addr = none) :
    count_by_domain es = .error (.panicAbort addrPanicMsg) :=
  count_by_domain_aux_bad es h []

/-- C9 (witness): concrete instance. -/
theorem C9_witness :
    count_by_domain [entryJune, entryBadAddr] = .error (.panicAbort addrPanicMsg) :=
  C9_abort [entryJune, entryBadAddr] ⟨entryBadAddr, by simp, by decide⟩

/-- C10 (counterexample): the claim predicts chart generation fails whenever
the collection has no record with a POST-sentinel timestamp; but a record
dated exactly at the sentinel is counted by `count_by_date` (strict skip,
src/main.rs:157), making the day-count list nonempty, and the three
`unwrap`s succeed. -/
theorem C10_counterexample :
    [entrySentinel].filter specPostSentinel = [] ∧
    graph_counts_by_date [entrySentinel] = .ok ((1980, 1, 1), (1980, 1, 1), 1) := by
  decide

/-- C10 (amended): if no record is at-or-after the sentinel (e.g. the
collection is empty) the day-count list is empty and the chart step panics
on its first `unwrap`; if at least one record is at-or-after the sentinel,
all three extractions (first, last, maximum) succeed. -/
theorem C10_graph (es : List Entry) :
    (es.filter (fun e => !dtLt e.date clearly_erroneous_date) = [] →
      graph_counts_by_date es = .error (.panicAbort graphPanicMsg)) ∧
    (es.filter (fun e => !dtLt e.date clearly_erroneous_date) ≠ [] →
      ∃ x, graph_counts_by_date es = .ok x) := by
  constructor
  · intro h
    have hc : count_by_date es = [] := (count_by_date_nil_iff es).mpr h
    simp [graph_counts_by_date, hc]
  · intro h
    have hc : count_by_date es ≠ [] := fun hcc => h ((count_by_date_nil_iff es).mp hcc)
    obtain ⟨p, rest, hpr⟩ : ∃ p rest, count_by_date es = p :: rest := by
      cases hcl : count_by_date es with
      | nil => exact absurd hcl hc
      | cons a as => exact ⟨a, as, rfl⟩
    have h1 : (count_by_date es).head? = some p := by rw [hpr]; rfl
    have h2 : ∃ q, (count_by_date es).getLast? = some q := by
      cases hq : (count_by_date es).getLast? with
      | none =>
        have hne : count_by_date es ≠ [] := hc
        have hsome := List.getLast?_isSome.mpr hne
        rw [hq] at hsome
        simp at hsome
      | some q => exact ⟨q, rfl⟩
    have h3 : ∃ mx, ((count_by_date es).map Prod.snd).max? = some mx := by
      cases hm : ((count_by_date es).map Prod.snd).max? with
      | none =>
        rw [List.max?_eq_none_iff] at hm
        simp [hpr] at hm
      | some mx => exact ⟨mx, rfl⟩
    obtain ⟨q, h2⟩ := h2
    obtain ⟨mx, h3⟩ := h3
    exact ⟨(p.1, q.1, mx), by simp [graph_counts_by_date, h1, h2, h3]⟩

/-- C10 (witness): concrete instances of both directions. -/
theorem C10_witness :
    graph_counts_by_date ([] : List Entry) = .error (.panicAbort graphPanicMsg) ∧
    ∃ x, graph_counts_by_date [entryJune] = .ok x :=
  ⟨(C10_graph []).1 (by decide), (C10_graph [entryJune]).2 (by decide)⟩

end Mailstat
